import Mathlib

/-
Verification of the idempotent WireGuard configuration-reconciliation logic of
pyinfra-wireguard (src/pyinfra_wireguard/config.py, __init__.py, secrets.py).

The pure renderers (peer_config, full_config) and the reconcilers
(deploy_wg_child, deploy_wg_mother, store_public_key_in_pass) are embedded as
Lean functions over an explicit world state (the remote wg0.conf file and the
pass secret store).  The external pyinfra collaborators (remote file probe,
remote file writer, remote block appender, service controller) are modelled
from the spec's collaborator contracts; every reconciler additionally returns
the trace of operations it performed, so that frame/effect claims (no key
generation, no write, restart decision) can be stated about the trace.
-/

namespace PyinfraWireguard

/-- Substring test on strings, by deciding list-infix on the character data. -/
def containsSub (s pat : String) : Bool :=
  decide (pat.data <:+: s.data)

/-- The observable remote state touched by the reconcilers: the contents of
/etc/wireguard/wg0.conf (`none` when the file is absent) and the pass secret
store, an association list from entry name to stored value. -/
structure World where
  file : Option String
  passStore : List (String × String)
deriving DecidableEq

/-- One externally visible operation performed by a reconciliation pass,
recorded in the order the source performs them. -/
inductive Effect where
  | aptPackages : List String → Effect
  | keyGen : Effect
  | filePut : String → String → String → Bool → Effect
  | fileBlock : String → String → Bool → Effect
  | passRead : String → Effect
  | passWrite : String → String → Effect
  | service : String → Bool → Bool → Bool → Effect
deriving DecidableEq

/-- Modelled from the spec: the remote file probe `containsMarker(path, marker)`
(pyinfra fact FindInFile) — true iff the marker substring is present in the
remote file; false if the file is absent. -/
def containsMarker (file : Option String) (marker : String) : Bool :=
  match file with
  | none => false
  | some s => containsSub s marker

/-- Modelled from the spec: the remote file writer `put(path, content, mode)`
(pyinfra files.put) — replaces the file wholly; changed=true iff the resulting
bytes differ from the prior bytes (in particular when the file was absent). -/
def put (w : World) (content : String) : World × Bool :=
  (⟨some content, w.passStore⟩, decide (w.file ≠ some content))

/-- Modelled from the spec: the remote block appender
`appendBlockIfAbsent(path, block)` (pyinfra files.block) — appends the block at
the end of the file only if an equivalent block is not already present
(presence = the block's text already occurring in the file); changed=true iff
the block was inserted.  On an absent file it creates the file holding the
block. -/
def appendBlockIfAbsent (w : World) (block : String) : World × Bool :=
  match w.file with
  | none => (⟨some block, w.passStore⟩, true)
  | some s =>
    if containsSub s block then (w, false)
    else (⟨some (s ++ block), w.passStore⟩, true)

/-- Embedding of config.py `PEER_CONFIG` / `peer_config`: render the [Peer]
block for one peer; the Endpoint and PersistentKeepalive lines are appended
only when the endpoint argument is truthy (non-empty). -/
def peer_config (peer pubkey allowed_ips endpoint : String) : String :=
  let pc := "\n# " ++ peer ++ "\n[Peer]\nPublicKey = " ++ pubkey ++
    "\nAllowedIps = " ++ allowed_ips ++ "\n"
  if endpoint ≠ "" then
    pc ++ ("Endpoint = " ++ endpoint ++ "\nPersistentKeepalive = 25\n")
  else pc

/-- Embedding of config.py `INTERFACE` / `full_config`: the [Interface] section,
a ListenPort line when listen_port is truthy (non-empty), then the peer blocks
in caller order. -/
def full_config (privkey address : String)
    (peers : List (String × String × String × String)) (listen_port : String) :
    String :=
  let config := "[Interface]\nPrivateKey = " ++ privkey ++ "\nAddress = " ++
    address ++ "\n"
  let config :=
    if listen_port ≠ "" then config ++ ("ListenPort = " ++ listen_port ++ "\n")
    else config
  peers.foldl (fun cfg p => cfg ++ peer_config p.1 p.2.1 p.2.2.1 p.2.2.2) config

/-- Embedding of secrets.py `get_pass`: read an entry from the pass store;
empty string when the entry is absent. -/
def get_pass (store : List (String × String)) (filename : String) : String :=
  (List.lookup filename store).getD ""

/-- Embedding of secrets.py `store_public_key_in_pass`: read the current value
of the entry and insert the public key only when it differs from what is
stored. -/
def store_public_key_in_pass (w : World) (pubkey pass_entry : String) :
    World × List Effect :=
  let status_quo := get_pass w.passStore pass_entry
  if pubkey ≠ status_quo then
    (⟨w.file, (pass_entry, pubkey) :: w.passStore⟩,
     [Effect.passRead pass_entry, Effect.passWrite pass_entry pubkey])
  else
    (w, [Effect.passRead pass_entry])

/-- Embedding of config.py `CONFIG_PATH`. -/
def CONFIG_PATH : String := "/etc/wireguard/wg0.conf"

/-- Result of one reconciliation pass: the final world state and the trace of
operations performed. -/
structure DeployResult where
  world : World
  effects : List Effect

/-- Embedding of config.py `deploy_wg_child`: install the package; when the
config file lacks the private-key marker, generate a keypair (modelled as the
externally supplied pair `gen`), write the freshly rendered single-peer config,
and optionally store the public key in pass; finally ensure the service is
enabled and running (never restarted). -/
def deploy_wg_child (address mother m_pubkey m_allowed_ips m_endpoint
    pass_entry : String) (gen : String × String) (w : World) : DeployResult :=
  let pre :=
    if containsMarker w.file "PrivateKey = " then (w, ([] : List Effect))
    else
      let privkey := gen.1
      let pubkey := gen.2
      let peers := [(mother, m_pubkey, m_allowed_ips, m_endpoint)]
      let content := full_config privkey address peers ""
      let pw := put w content
      let ps :=
        if pass_entry ≠ "" then store_public_key_in_pass pw.1 pubkey pass_entry
        else (pw.1, [])
      (ps.1, Effect.keyGen :: Effect.filePut CONFIG_PATH content "600" pw.2 ::
        ps.2)
  ⟨pre.1, Effect.aptPackages ["wireguard"] :: pre.2 ++
    [Effect.service "wg-quick@wg0" true true false]⟩

/-- The per-child loop of config.py `deploy_wg_mother`: for each declared child
render its peer block and attempt the idempotent append, folding each changed
flag into the reload flag. -/
def motherLoop (w : World) (reload : Bool)
    (peers : List (String × String × String)) :
    World × Bool × List Effect :=
  match peers with
  | [] => (w, reload, [])
  | child :: rest =>
    let child_config := peer_config child.1 child.2.1 child.2.2 ""
    let pa := appendBlockIfAbsent w child_config
    let r := motherLoop pa.1 (reload || pa.2) rest
    (r.1, r.2.1, Effect.fileBlock CONFIG_PATH child_config pa.2 :: r.2.2)

/-- Embedding of config.py `deploy_wg_mother`: install the package; when the
config file lacks the private-key marker, generate a keypair, write the
rendered interface-only config (with listen port) and optionally store the
public key in pass, folding the write's changed flag into reload_config; then
append each declared child's peer block idempotently, folding each changed
flag; finally ensure the service is enabled, running, and restarted iff
reload_config. -/
def deploy_wg_mother (address listen_port : String)
    (peers : List (String × String × String)) (pass_entry : String)
    (gen : String × String) (w : World) : DeployResult :=
  let pre :=
    if containsMarker w.file "PrivateKey = " then (w, false, ([] : List Effect))
    else
      let privkey := gen.1
      let pubkey := gen.2
      let content := full_config privkey address [] listen_port
      let pw := put w content
      let ps :=
        if pass_entry ≠ "" then store_public_key_in_pass pw.1 pubkey pass_entry
        else (pw.1, [])
      (ps.1, false || pw.2,
       Effect.keyGen :: Effect.filePut CONFIG_PATH content "600" pw.2 :: ps.2)
  let lp := motherLoop pre.1 pre.2.1 peers
  ⟨lp.1, Effect.aptPackages ["wireguard"] :: pre.2.2 ++ lp.2.2 ++
    [Effect.service "wg-quick@wg0" true true lp.2.1]⟩

namespace Init

/-- Embedding of __init__.py `deploy_wg_mother` (the copy exported at the
package top level): its body is only a docstring, so it performs no operation
and leaves the world unchanged. -/
def deploy_wg_mother (address listen_port : String)
    (peers : List (String × String × String)) (w : World) : DeployResult :=
  ⟨w, []⟩

end Init

/-- The comment line that carries a peer's name inside its rendered block, used
as the block's identity during the merge. -/
def peerMarker (name : String) : String := "\n# " ++ name ++ "\n"

/-- The rendered block the mother loop appends for one declared child
(hostname, public key, allowed IPs). -/
def blockOf (c : String × String × String) : String :=
  peer_config c.1 c.2.1 c.2.2 ""

/-- Number of occurrences of `pat` in `s`: the number of suffixes of `s` that
`pat` is a prefix of. -/
def countOcc (pat : List Char) : List Char → Nat
  | [] => if pat <+: ([] : List Char) then 1 else 0
  | c :: rest => (if pat <+: c :: rest then 1 else 0) + countOcc pat rest

/-- Iterate the idempotent block append n times with the same block. -/
def iterAppend (n : Nat) (w : World) (block : String) : World :=
  match n with
  | 0 => w
  | n + 1 => iterAppend n (appendBlockIfAbsent w block).1 block

def Effect.isKeyGen : Effect → Bool
  | .keyGen => true
  | _ => false

def Effect.isPut : Effect → Bool
  | .filePut _ _ _ _ => true
  | _ => false

def Effect.isChangedPut : Effect → Bool
  | .filePut _ _ _ ch => ch
  | _ => false

def Effect.isBlock : Effect → Bool
  | .fileBlock _ _ _ => true
  | _ => false

def Effect.isChangedBlock : Effect → Bool
  | .fileBlock _ _ ch => ch
  | _ => false

def Effect.isPassWrite : Effect → Bool
  | .passWrite _ _ => true
  | _ => false

def Effect.restartFlag : Effect → Bool
  | .service _ _ _ r => r
  | _ => false

def Effect.isEnableStart : Effect → Bool
  | .service _ en ru _ => en && ru
  | _ => false

/-- Whether a trace contains a service request with restart set. -/
def restartRequested (es : List Effect) : Bool := es.any Effect.restartFlag

/-- Whether a trace contains a service request with enabled and running set. -/
def enableStartRequested (es : List Effect) : Bool := es.any Effect.isEnableStart

def countKeyGens (es : List Effect) : Nat := es.countP Effect.isKeyGen

def countPuts (es : List Effect) : Nat := es.countP Effect.isPut

def countChangedPuts (es : List Effect) : Nat := es.countP Effect.isChangedPut

def countChangedBlocks (es : List Effect) : Nat :=
  es.countP Effect.isChangedBlock

def countPassWrites (es : List Effect) : Nat := es.countP Effect.isPassWrite

/-- The config file the end-to-end mother scenario is expected to produce:
interface section with the generated private key, address and listen port,
followed by exactly one peer block for alice. -/
def expectedMotherConfig : String :=
  "[Interface]\nPrivateKey = PRIVKEYTEST\nAddress = 10.0.0.1/24\nListenPort = 51820\n\n# alice\n[Peer]\nPublicKey = AAAexamplekey\nAllowedIps = 10.0.0.2/32\n"

theorem containsSub_iff {s pat : String} :
    containsSub s pat = true ↔ pat.data <:+: s.data := by
  simp [containsSub]

theorem string_ext {s t : String} (h : s.data = t.data) : s = t := by
  cases s with
  | mk a =>
    cases t with
    | mk b =>
      simp only at h
      rw [h]

theorem string_append_empty (s : String) : s ++ "" = s := by
  apply string_ext
  simp [String.data_append]

theorem containsSub_append_left {a pat : String} (b : String)
    (h : containsSub a pat = true) : containsSub (a ++ b) pat = true := by
  rw [containsSub_iff] at h ⊢
  rw [String.data_append]
  exact h.trans (List.prefix_append a.data b.data).isInfix

theorem containsSub_append_right {b pat : String} (a : String)
    (h : containsSub b pat = true) : containsSub (a ++ b) pat = true := by
  rw [containsSub_iff] at h ⊢
  rw [String.data_append]
  exact h.trans (List.suffix_append a.data b.data).isInfix

theorem containsSub_self (s : String) : containsSub s s = true := by
  simp [containsSub]

theorem containsSub_eq_false_of_not_mem {s pat : String} {c : Char}
    (hc : c ∈ pat.data) (hs : c ∉ s.data) : containsSub s pat = false := by
  cases hb : containsSub s pat with
  | false => rfl
  | true => exact ((hs ((containsSub_iff.mp hb).subset hc)).elim)

theorem not_infix_append_head {pat x y : List Char}
    (hx : ¬ pat <:+: x) (hy : ¬ pat <:+: y)
    (hd : ∀ d, y.head? = some d → d ∉ pat) : ¬ pat <:+: x ++ y := by
  rintro ⟨a, b, hab⟩
  rw [List.append_assoc] at hab
  rcases le_or_lt (a.length + pat.length) x.length with hle | hgt
  · apply hx
    have h1 : a ++ pat <+: x ++ y := ⟨b, by rw [List.append_assoc]; exact hab⟩
    have h2 : a ++ pat <+: x :=
      List.prefix_of_prefix_length_le h1 (List.prefix_append x y)
        (by simpa [List.length_append] using hle)
    exact ((List.suffix_append a pat).isInfix).trans h2.isInfix
  · rcases le_or_lt x.length a.length with hle2 | hgt2
    · apply hy
      have ha : a <+: x ++ y := ⟨pat ++ b, hab⟩
      have hxa : x <+: a :=
        List.prefix_of_prefix_length_le (List.prefix_append x y) ha hle2
      obtain ⟨a2, rfl⟩ := hxa
      rw [List.append_assoc] at hab
      have h3 : a2 ++ (pat ++ b) = y := List.append_cancel_left hab
      exact ⟨a2, b, by rw [List.append_assoc]; exact h3⟩
    · have hbound : x.length < (a ++ (pat ++ b)).length := by
        simp only [List.length_append]
        omega
      rw [hab] at hbound
      have hy0 : ∃ y0 y2, y = y0 :: y2 := by
        cases y with
        | nil => simp [List.length_append] at hbound
        | cons y0 y2 => exact ⟨y0, y2, rfl⟩
      obtain ⟨y0, y2, rfl⟩ := hy0
      apply hd y0 rfl
      have e1 : (x ++ y0 :: y2)[x.length]? = some y0 := by
        rw [List.getElem?_append_right (le_refl x.length)]
        simp
      rw [← hab] at e1
      rw [List.getElem?_append_right (le_of_lt hgt2)] at e1
      rw [List.getElem?_append] at e1
      rw [if_pos (by omega : x.length - a.length < pat.length)] at e1
      rw [List.getElem?_eq_some_iff] at e1
      obtain ⟨hi, he⟩ := e1
      rw [← he]
      exact List.getElem_mem hi

theorem not_infix_append_last {pat x y : List Char}
    (hx : ¬ pat <:+: x) (hy : ¬ pat <:+: y)
    (hl : ∀ d, x.getLast? = some d → d ∉ pat) : ¬ pat <:+: x ++ y := by
  rintro ⟨a, b, hab⟩
  rw [List.append_assoc] at hab
  rcases le_or_lt (a.length + pat.length) x.length with hle | hgt
  · apply hx
    have h1 : a ++ pat <+: x ++ y := ⟨b, by rw [List.append_assoc]; exact hab⟩
    have h2 : a ++ pat <+: x :=
      List.prefix_of_prefix_length_le h1 (List.prefix_append x y)
        (by simpa [List.length_append] using hle)
    exact ((List.suffix_append a pat).isInfix).trans h2.isInfix
  · rcases le_or_lt x.length a.length with hle2 | hgt2
    · apply hy
      have ha : a <+: x ++ y := ⟨pat ++ b, hab⟩
      have hxa : x <+: a :=
        List.prefix_of_prefix_length_le (List.prefix_append x y) ha hle2
      obtain ⟨a2, rfl⟩ := hxa
      rw [List.append_assoc] at hab
      have h3 : a2 ++ (pat ++ b) = y := List.append_cancel_left hab
      exact ⟨a2, b, by rw [List.append_assoc]; exact h3⟩
    · have hxlen : 0 < x.length := by omega
      have hi : x.length - 1 < x.length := by omega
      have hxne : x ≠ [] := List.ne_nil_of_length_pos hxlen
      have e1 : (x ++ y)[x.length - 1]? = x.getLast? := by
        rw [List.getElem?_append]
        rw [if_pos hi]
        rw [List.getLast?_eq_getElem?]
      rw [← hab] at e1
      rw [List.getElem?_append_right (by omega : a.length ≤ x.length - 1)] at e1
      rw [List.getElem?_append] at e1
      rw [if_pos (by omega : x.length - 1 - a.length < pat.length)] at e1
      rw [List.getLast?_eq_getLast x hxne] at e1
      rw [List.getElem?_eq_some_iff] at e1
      obtain ⟨hj, he⟩ := e1
      apply hl (x.getLast hxne) (List.getLast?_eq_getLast x hxne)
      rw [← he]
      exact List.getElem_mem hj

theorem head_ne_hash {f b : List Char} (hf : '#' ∉ f)
    (hb : ∀ d, b.head? = some d → d = '\n') :
    ∀ d, (f ++ b).head? = some d → d ≠ '#' := by
  intro d hd
  cases f with
  | nil =>
    simp only [List.nil_append] at hd
    rw [hb d hd]
    decide
  | cons e f2 =>
    simp only [List.cons_append, List.head?_cons, Option.some.injEq] at hd
    subst hd
    intro he
    apply hf
    rw [← he]
    exact List.mem_cons_self _ _

theorem countOcc_eq_zero_of_hash_not_mem {p : List Char} :
    ∀ t : List Char, '#' ∉ t → countOcc ('\n' :: '#' :: p) t = 0 := by
  intro t
  induction t with
  | nil =>
    intro _
    simp [countOcc]
  | cons c t ih =>
    intro ht
    have ht2 : '#' ∉ t := fun hm => ht (List.mem_cons_of_mem c hm)
    simp only [countOcc]
    rw [ih ht2]
    rw [if_neg]
    · intro hpre
      rw [List.cons_prefix_cons] at hpre
      obtain ⟨_, hpre2⟩ := hpre
      cases t with
      | nil => exact absurd hpre2 (by simp)
      | cons d t2 =>
        rw [List.cons_prefix_cons] at hpre2
        apply ht
        rw [hpre2.1]
        exact List.mem_cons_of_mem c (List.mem_cons_self _ _)

theorem countOcc_append_hashfree {p b : List Char}
    (hb : ∀ d, b.head? = some d → d = '\n') :
    ∀ f : List Char, '#' ∉ f →
    countOcc ('\n' :: '#' :: p) (f ++ b) = countOcc ('\n' :: '#' :: p) b := by
  intro f
  induction f with
  | nil =>
    intro _
    rw [List.nil_append]
  | cons c f ih =>
    intro hf
    have hf2 : '#' ∉ f := fun hm => hf (List.mem_cons_of_mem c hm)
    rw [List.cons_append]
    simp only [countOcc]
    rw [ih hf2]
    rw [if_neg]
    · simp
    · intro hpre
      rw [List.cons_prefix_cons] at hpre
      obtain ⟨_, hpre2⟩ := hpre
      cases hfb : f ++ b with
      | nil =>
        rw [hfb] at hpre2
        exact absurd hpre2 (by simp)
      | cons d rest =>
        rw [hfb] at hpre2
        rw [List.cons_prefix_cons] at hpre2
        exact head_ne_hash hf2 hb d (by rw [hfb]; rfl) hpre2.1.symm

theorem countOcc_block {p t : List Char} (ht : '#' ∉ t)
    (hpre : ('\n' :: '#' :: p) <+: ('\n' :: '#' :: t)) :
    countOcc ('\n' :: '#' :: p) ('\n' :: '#' :: t) = 1 := by
  simp only [countOcc]
  rw [if_pos hpre]
  rw [countOcc_eq_zero_of_hash_not_mem t ht]
  rw [if_neg]
  intro h
  rw [List.cons_prefix_cons] at h
  exact absurd h.1 (by decide)

theorem motherLoop_state {peers : List (String × String × String)} :
    ∀ (w : World) (r : Bool) (s : String), w.file = some s →
    ∃ t, (motherLoop w r peers).1.file = some (s ++ t) ∧
      (motherLoop w r peers).1.passStore = w.passStore := by
  induction peers with
  | nil =>
    intro w r s hw
    refine ⟨"", ?_, rfl⟩
    rw [motherLoop, hw, string_append_empty]
  | cons c rest ih =>
    intro w r s hw
    obtain ⟨file, store⟩ := w
    simp only at hw
    subst hw
    simp only [motherLoop, appendBlockIfAbsent]
    by_cases hc : containsSub s (peer_config c.1 c.2.1 c.2.2 "") = true
    · rw [if_pos hc]
      exact ih ⟨some s, store⟩ (r || false) s rfl
    · rw [if_neg hc]
      obtain ⟨t, ht1, ht2⟩ :=
        ih ⟨some (s ++ peer_config c.1 c.2.1 c.2.2 ""), store⟩ (r || true)
          (s ++ peer_config c.1 c.2.1 c.2.2 "") rfl
      refine ⟨peer_config c.1 c.2.1 c.2.2 "" ++ t, ?_, ht2⟩
      rw [ht1, String.append_assoc]

theorem motherLoop_blocks {peers : List (String × String × String)} :
    ∀ (w : World) (r : Bool) (s : String), w.file = some s →
    ∀ F, (motherLoop w r peers).1.file = some F →
    ∀ c ∈ peers, containsSub F (blockOf c) = true := by
  induction peers with
  | nil =>
    intro w r s hw F hF c hc
    exact absurd hc (List.not_mem_nil c)
  | cons c0 rest ih =>
    intro w r s hw F hF c hc
    obtain ⟨file, store⟩ := w
    simp only at hw
    subst hw
    simp only [motherLoop, appendBlockIfAbsent] at hF
    by_cases h0 : containsSub s (peer_config c0.1 c0.2.1 c0.2.2 "") = true
    · rw [if_pos h0] at hF
      rcases List.mem_cons.mp hc with rfl | hcr
      · obtain ⟨t, ht1, _⟩ := motherLoop_state ⟨some s, store⟩ (r || false) s rfl
        rw [hF] at ht1
        have hFe : F = s ++ t := by
          injection ht1.symm with h
          exact h.symm
        rw [hFe]
        exact containsSub_append_left t h0
      · exact ih ⟨some s, store⟩ (r || false) s rfl F hF c hcr
    · rw [if_neg h0] at hF
      rcases List.mem_cons.mp hc with rfl | hcr
      · obtain ⟨t, ht1, _⟩ :=
          motherLoop_state ⟨some (s ++ peer_config c.1 c.2.1 c.2.2 ""), store⟩
            (r || true) (s ++ peer_config c.1 c.2.1 c.2.2 "") rfl
        rw [hF] at ht1
        have hFe : F = (s ++ peer_config c.1 c.2.1 c.2.2 "") ++ t := by
          injection ht1.symm with h
          exact h.symm
        rw [hFe]
        apply containsSub_append_left
        exact containsSub_append_right s (containsSub_self _)
      · exact ih ⟨some (s ++ peer_config c0.1 c0.2.1 c0.2.2 ""), store⟩
          (r || true) (s ++ peer_config c0.1 c0.2.1 c0.2.2 "") rfl F hF c hcr

theorem motherLoop_noop {peers : List (String × String × String)} :
    ∀ (w : World) (r : Bool) (s : String), w.file = some s →
    (∀ c ∈ peers, containsSub s (blockOf c) = true) →
    (motherLoop w r peers).1 = w ∧ (motherLoop w r peers).2.1 = r ∧
      countChangedBlocks (motherLoop w r peers).2.2 = 0 := by
  induction peers with
  | nil =>
    intro w r s hw _
    exact ⟨rfl, rfl, rfl⟩
  | cons c0 rest ih =>
    intro w r s hw hall
    obtain ⟨file, store⟩ := w
    simp only at hw
    subst hw
    have h0 : containsSub s (blockOf c0) = true :=
      hall c0 (List.mem_cons_self _ _)
    simp only [motherLoop, appendBlockIfAbsent, blockOf] at h0 ⊢
    rw [if_pos h0]
    obtain ⟨h1, h2, h3⟩ := ih ⟨some s, store⟩ (r || false) s rfl
      (fun c hc => hall c (List.mem_cons_of_mem c0 hc))
    refine ⟨h1, by rw [h2]; simp, ?_⟩
    simp only [countChangedBlocks, List.countP_cons] at h3 ⊢
    simpa [Effect.isChangedBlock] using h3

theorem motherLoop_reload {peers : List (String × String × String)} :
    ∀ (w : World) (r : Bool),
    (motherLoop w r peers).2.1 =
      (r || (motherLoop w r peers).2.2.any Effect.isChangedBlock) := by
  induction peers with
  | nil =>
    intro w r
    simp [motherLoop]
  | cons c0 rest ih =>
    intro w r
    simp only [motherLoop]
    rw [ih]
    simp [Effect.isChangedBlock, Bool.or_assoc]

theorem motherLoop_effects_shape (peers : List (String × String × String)) :
    ∀ (w : World) (r : Bool),
    ∀ e ∈ (motherLoop w r peers).2.2, e.isBlock = true := by
  induction peers with
  | nil =>
    intro w r e he
    exact absurd he (List.not_mem_nil e)
  | cons c0 rest ih =>
    intro w r e he
    simp only [motherLoop] at he
    rcases List.mem_cons.mp he with rfl | her
    · rfl
    · exact ih _ _ e her

theorem Effect.isBlock_flags {e : Effect} (h : e.isBlock = true) :
    e.restartFlag = false ∧ e.isChangedPut = false ∧ e.isKeyGen = false ∧
      e.isPut = false ∧ e.isEnableStart = false ∧ e.isPassWrite = false := by
  cases e <;> simp_all [Effect.isBlock, Effect.restartFlag, Effect.isChangedPut,
    Effect.isKeyGen, Effect.isPut, Effect.isEnableStart, Effect.isPassWrite]

theorem store_pass_file (w : World) (pk e : String) :
    (store_public_key_in_pass w pk e).1.file = w.file := by
  simp only [store_public_key_in_pass]
  split <;> rfl

theorem store_pass_effects (w : World) (pk e : String) :
    (store_public_key_in_pass w pk e).2 = [Effect.passRead e] ∨
    (store_public_key_in_pass w pk e).2 =
      [Effect.passRead e, Effect.passWrite e pk] := by
  simp only [store_public_key_in_pass]
  split
  · right; rfl
  · left; rfl

theorem marker_in_full_config (privkey address listen_port : String) :
    containsSub (full_config privkey address [] listen_port)
      "PrivateKey = " = true := by
  have hbase : containsSub
      ("[Interface]\nPrivateKey = " ++ privkey ++ "\nAddress = " ++ address ++
        "\n") "PrivateKey = " = true := by
    apply containsSub_append_left
    apply containsSub_append_left
    apply containsSub_append_left
    apply containsSub_append_left
    decide
  simp only [full_config, List.foldl_nil]
  by_cases h : listen_port = ""
  · simp only [h, ne_eq, not_true_eq_false, if_neg, ite_false]
    exact hbase
  · rw [if_pos h]
    exact containsSub_append_left _ hbase

theorem countP_zero_of_blocks {es : List Effect}
    (h : ∀ e ∈ es, e.isBlock = true) (p : Effect → Bool)
    (hp : ∀ e, e.isBlock = true → p e = false) : es.countP p = 0 :=
  List.countP_eq_zero.mpr (fun e he => by simp [hp e (h e he)])

theorem any_false_of_blocks {es : List Effect}
    (h : ∀ e ∈ es, e.isBlock = true) (p : Effect → Bool)
    (hp : ∀ e, e.isBlock = true → p e = false) : es.any p = false :=
  List.any_eq_false.mpr (fun e he => by simp [hp e (h e he)])

theorem mother_run (address listen_port pass_entry : String)
    (peers : List (String × String × String)) (gen : String × String)
    (w : World) :
    ∃ F, (deploy_wg_mother address listen_port peers pass_entry gen
        w).world.file = some F ∧
      containsSub F "PrivateKey = " = true ∧
      ∀ c ∈ peers, containsSub F (blockOf c) = true := by
  simp only [deploy_wg_mother]
  by_cases hp : containsMarker w.file "PrivateKey = " = true
  · rw [if_pos hp]
    cases hwf : w.file with
    | none => rw [hwf] at hp; exact absurd hp (by simp [containsMarker])
    | some s =>
      have hs : containsSub s "PrivateKey = " = true := by
        rw [hwf] at hp
        exact hp
      obtain ⟨t, ht1, _⟩ := motherLoop_state w false s hwf
      refine ⟨s ++ t, ht1, containsSub_append_left t hs, ?_⟩
      exact motherLoop_blocks w false s hwf (s ++ t) ht1
  · rw [if_neg hp]
    by_cases he : pass_entry = ""
    · simp only [he, ne_eq, not_true_eq_false, if_neg, ite_false, put]
      obtain ⟨t, ht1, _⟩ := motherLoop_state
        ⟨some (full_config gen.1 address [] listen_port), w.passStore⟩
        (false || decide (w.file ≠ some (full_config gen.1 address []
          listen_port))) (full_config gen.1 address [] listen_port) rfl
      refine ⟨full_config gen.1 address [] listen_port ++ t, ht1, ?_, ?_⟩
      · exact containsSub_append_left t (marker_in_full_config _ _ _)
      · exact motherLoop_blocks _ _ _ rfl _ ht1
    · rw [if_pos he]
      have hfile : (store_public_key_in_pass (put w (full_config gen.1 address
          [] listen_port)).1 gen.2 pass_entry).1.file =
          some (full_config gen.1 address [] listen_port) := by
        rw [store_pass_file]
        rfl
      obtain ⟨t, ht1, _⟩ := motherLoop_state
        (store_public_key_in_pass (put w (full_config gen.1 address []
          listen_port)).1 gen.2 pass_entry).1
        (false || (put w (full_config gen.1 address [] listen_port)).2)
        (full_config gen.1 address [] listen_port) hfile
      refine ⟨full_config gen.1 address [] listen_port ++ t, ht1, ?_, ?_⟩
      · exact containsSub_append_left t (marker_in_full_config _ _ _)
      · exact motherLoop_blocks _ _ _ hfile _ ht1

/-- Claim C1: for every declared mother state (address, listen port, identical
declared child peer list) and for the file state produced by a first run of
deploy_wg_mother from any initial state, a second run of deploy_wg_mother
leaves the config file byte-identical, performs zero writes (changing or not)
and zero changing appends, and computes restart flag = false. -/
theorem claim_c1 (address listen_port pass_entry : String)
    (peers : List (String × String × String)) (g1 g2 : String × String)
    (w : World) :
    (deploy_wg_mother address listen_port peers pass_entry g2
        (deploy_wg_mother address listen_port peers pass_entry g1
          w).world).world.file =
      (deploy_wg_mother address listen_port peers pass_entry g1
        w).world.file ∧
    countPuts (deploy_wg_mother address listen_port peers pass_entry g2
      (deploy_wg_mother address listen_port peers pass_entry g1
        w).world).effects = 0 ∧
    countChangedPuts (deploy_wg_mother address listen_port peers pass_entry g2
      (deploy_wg_mother address listen_port peers pass_entry g1
        w).world).effects = 0 ∧
    countChangedBlocks (deploy_wg_mother address listen_port peers pass_entry
      g2 (deploy_wg_mother address listen_port peers pass_entry g1
        w).world).effects = 0 ∧
    restartRequested (deploy_wg_mother address listen_port peers pass_entry g2
      (deploy_wg_mother address listen_port peers pass_entry g1
        w).world).effects = false := by
  obtain ⟨F, hF, hm, hbl⟩ :=
    mother_run address listen_port pass_entry peers g1 w
  generalize hW : (deploy_wg_mother address listen_port peers pass_entry g1
    w).world = W1 at hF ⊢
  have hbl2 : ∀ c ∈ peers, containsSub F (blockOf c) = true := hbl
  have hp2 : containsMarker W1.file "PrivateKey = " = true := by
    rw [hF]
    exact hm
  simp only [deploy_wg_mother]
  rw [if_pos hp2]
  obtain ⟨hw1, hr1, hcnt⟩ := motherLoop_noop W1 false F hF hbl2
  have hshape := motherLoop_effects_shape peers W1 false
  have hz1 : (motherLoop W1 false peers).2.2.countP Effect.isPut = 0 :=
    countP_zero_of_blocks hshape _
      (fun e he => (Effect.isBlock_flags he).2.2.2.1)
  have hz2 : (motherLoop W1 false peers).2.2.countP Effect.isChangedPut = 0 :=
    countP_zero_of_blocks hshape _
      (fun e he => (Effect.isBlock_flags he).2.1)
  have ha : (motherLoop W1 false peers).2.2.any Effect.restartFlag = false :=
    any_false_of_blocks hshape _ (fun e he => (Effect.isBlock_flags he).1)
  refine ⟨by rw [hw1], ?_, ?_, ?_, ?_⟩
  · simp [countPuts, List.countP_cons, List.countP_append, Effect.isPut, hz1]
  · simp [countChangedPuts, List.countP_cons, List.countP_append,
      Effect.isChangedPut, hz2, hr1]
  · simp only [countChangedBlocks] at hcnt
    simp [countChangedBlocks, List.countP_cons, List.countP_append,
      Effect.isChangedBlock, hcnt, hr1]
  · simp [restartRequested, List.any_cons, List.any_append,
      Effect.restartFlag, ha, hr1]

/-- Claim C2: for both roles, if the observed config file already contains the
private-key marker line "PrivateKey = ", the reconciliation pass performs no
key generation and no interface-file write: the child pass leaves the world
untouched, and the mother pass leaves the existing file contents in place as a
prefix of the final contents (so the stored private key is never changed). -/
theorem claim_c2 (address mother m_pubkey m_allowed_ips m_endpoint pass_entry
    listen_port : String) (peers : List (String × String × String))
    (g : String × String) (w : World) (s : String)
    (hw : w.file = some s) (hm : containsSub s "PrivateKey = " = true) :
    ((deploy_wg_child address mother m_pubkey m_allowed_ips m_endpoint
        pass_entry g w).world = w ∧
      countKeyGens (deploy_wg_child address mother m_pubkey m_allowed_ips
        m_endpoint pass_entry g w).effects = 0 ∧
      countPuts (deploy_wg_child address mother m_pubkey m_allowed_ips
        m_endpoint pass_entry g w).effects = 0) ∧
    (countKeyGens (deploy_wg_mother address listen_port peers pass_entry g
        w).effects = 0 ∧
      countPuts (deploy_wg_mother address listen_port peers pass_entry g
        w).effects = 0 ∧
      (deploy_wg_mother address listen_port peers pass_entry g
        w).world.passStore = w.passStore ∧
      ∃ t, (deploy_wg_mother address listen_port peers pass_entry g
        w).world.file = some (s ++ t)) := by
  have hp : containsMarker w.file "PrivateKey = " = true := by
    rw [hw]
    exact hm
  constructor
  · simp only [deploy_wg_child]
    rw [if_pos hp]
    exact ⟨rfl, rfl, rfl⟩
  · simp only [deploy_wg_mother]
    rw [if_pos hp]
    obtain ⟨t, ht1, ht2⟩ := motherLoop_state w false s hw
    have hshape := motherLoop_effects_shape peers w false
    have hz1 : (motherLoop w false peers).2.2.countP Effect.isKeyGen = 0 :=
      countP_zero_of_blocks hshape _
        (fun e he => (Effect.isBlock_flags he).2.2.1)
    have hz2 : (motherLoop w false peers).2.2.countP Effect.isPut = 0 :=
      countP_zero_of_blocks hshape _
        (fun e he => (Effect.isBlock_flags he).2.2.2.1)
    refine ⟨?_, ?_, ht2, ⟨t, ht1⟩⟩
    · simp [countKeyGens, List.countP_cons, List.countP_append,
        Effect.isKeyGen, hz1]
    · simp [countPuts, List.countP_cons, List.countP_append, Effect.isPut,
        hz2]

/-- Witness for C2 at a concrete provisioned world: the file holds a private
key, and the pass changes nothing and performs no key generation or write. -/
theorem claim_c2_witness :
    ((⟨some "[Interface]\nPrivateKey = OLDKEY\nAddress = 10.0.0.9/24\n",
        []⟩ : World).file =
      some "[Interface]\nPrivateKey = OLDKEY\nAddress = 10.0.0.9/24\n") ∧
    containsSub "[Interface]\nPrivateKey = OLDKEY\nAddress = 10.0.0.9/24\n"
      "PrivateKey = " = true ∧
    (((deploy_wg_child "10.0.0.9/24" "hub" "HUBKEY" "10.0.0.0/24"
        "vpn.example.org:51820" "" ("NEWPRIV", "NEWPUB")
        ⟨some "[Interface]\nPrivateKey = OLDKEY\nAddress = 10.0.0.9/24\n",
          []⟩).world =
      ⟨some "[Interface]\nPrivateKey = OLDKEY\nAddress = 10.0.0.9/24\n", []⟩ ∧
      countKeyGens (deploy_wg_child "10.0.0.9/24" "hub" "HUBKEY" "10.0.0.0/24"
        "vpn.example.org:51820" "" ("NEWPRIV", "NEWPUB")
        ⟨some "[Interface]\nPrivateKey = OLDKEY\nAddress = 10.0.0.9/24\n",
          []⟩).effects = 0 ∧
      countPuts (deploy_wg_child "10.0.0.9/24" "hub" "HUBKEY" "10.0.0.0/24"
        "vpn.example.org:51820" "" ("NEWPRIV", "NEWPUB")
        ⟨some "[Interface]\nPrivateKey = OLDKEY\nAddress = 10.0.0.9/24\n",
          []⟩).effects = 0) ∧
    (countKeyGens (deploy_wg_mother "10.0.0.9/24" "51820"
        [("c1", "C1KEY", "10.0.0.2/32")] "" ("NEWPRIV", "NEWPUB")
        ⟨some "[Interface]\nPrivateKey = OLDKEY\nAddress = 10.0.0.9/24\n",
          []⟩).effects = 0 ∧
      countPuts (deploy_wg_mother "10.0.0.9/24" "51820"
        [("c1", "C1KEY", "10.0.0.2/32")] "" ("NEWPRIV", "NEWPUB")
        ⟨some "[Interface]\nPrivateKey = OLDKEY\nAddress = 10.0.0.9/24\n",
          []⟩).effects = 0 ∧
      (deploy_wg_mother "10.0.0.9/24" "51820"
        [("c1", "C1KEY", "10.0.0.2/32")] "" ("NEWPRIV", "NEWPUB")
        ⟨some "[Interface]\nPrivateKey = OLDKEY\nAddress = 10.0.0.9/24\n",
          []⟩).world.passStore =
        (⟨some "[Interface]\nPrivateKey = OLDKEY\nAddress = 10.0.0.9/24\n",
          []⟩ : World).passStore ∧
      ∃ t, (deploy_wg_mother "10.0.0.9/24" "51820"
        [("c1", "C1KEY", "10.0.0.2/32")] "" ("NEWPRIV", "NEWPUB")
        ⟨some "[Interface]\nPrivateKey = OLDKEY\nAddress = 10.0.0.9/24\n",
          []⟩).world.file =
        some ("[Interface]\nPrivateKey = OLDKEY\nAddress = 10.0.0.9/24\n" ++
          t))) :=
  ⟨rfl, by decide,
    claim_c2 "10.0.0.9/24" "hub" "HUBKEY" "10.0.0.0/24"
      "vpn.example.org:51820" "" "51820" [("c1", "C1KEY", "10.0.0.2/32")]
      ("NEWPRIV", "NEWPUB")
      ⟨some "[Interface]\nPrivateKey = OLDKEY\nAddress = 10.0.0.9/24\n", []⟩
      "[Interface]\nPrivateKey = OLDKEY\nAddress = 10.0.0.9/24\n" rfl
      (by decide)⟩

theorem loop_any_restart (peers : List (String × String × String))
    (w : World) (r : Bool) :
    (motherLoop w r peers).2.2.any Effect.restartFlag = false :=
  any_false_of_blocks (motherLoop_effects_shape peers w r) _
    (fun e he => (Effect.isBlock_flags he).1)

theorem loop_any_changedPut (peers : List (String × String × String))
    (w : World) (r : Bool) :
    (motherLoop w r peers).2.2.any Effect.isChangedPut = false :=
  any_false_of_blocks (motherLoop_effects_shape peers w r) _
    (fun e he => (Effect.isBlock_flags he).2.1)

theorem loop_any_enableStart (peers : List (String × String × String))
    (w : World) (r : Bool) :
    (motherLoop w r peers).2.2.any Effect.isEnableStart = false :=
  any_false_of_blocks (motherLoop_effects_shape peers w r) _
    (fun e he => (Effect.isBlock_flags he).2.2.2.2.1)

/-- Claim C4: on every mother pass the service restart is requested iff some
file write changed bytes or some per-child append changed the file; when the
interface stage is a no-op (file already provisioned) but a declared child's
block is absent, the restart decision is true; enable/start is requested
unconditionally. -/
theorem claim_c4 (address listen_port pass_entry : String)
    (peers : List (String × String × String)) (g : String × String)
    (w : World) :
    restartRequested (deploy_wg_mother address listen_port peers pass_entry g
        w).effects =
      ((deploy_wg_mother address listen_port peers pass_entry g
          w).effects.any Effect.isChangedPut ||
        (deploy_wg_mother address listen_port peers pass_entry g
          w).effects.any Effect.isChangedBlock) ∧
    enableStartRequested (deploy_wg_mother address listen_port peers pass_entry
      g w).effects = true ∧
    (∀ c s, peers = [c] → w.file = some s →
      containsSub s "PrivateKey = " = true →
      containsSub s (blockOf c) = false →
      restartRequested (deploy_wg_mother address listen_port peers pass_entry g
        w).effects = true) := by
  refine ⟨?_, ?_, ?_⟩
  · simp only [deploy_wg_mother]
    by_cases hp : containsMarker w.file "PrivateKey = " = true
    · rw [if_pos hp]
      simp [restartRequested, List.any_cons, List.any_append,
        Effect.restartFlag, Effect.isChangedPut, Effect.isChangedBlock,
        loop_any_restart, loop_any_changedPut, motherLoop_reload]
    · rw [if_neg hp]
      by_cases he : pass_entry = ""
      · simp only [he, ne_eq, not_true_eq_false, if_neg, ite_false, put]
        simp [restartRequested, List.any_cons, List.any_append,
          Effect.restartFlag, Effect.isChangedPut, Effect.isChangedBlock,
          loop_any_restart, loop_any_changedPut, motherLoop_reload,
          Bool.or_assoc]
      · rw [if_pos he]
        rcases store_pass_effects (put w (full_config g.1 address []
            listen_port)).1 g.2 pass_entry with hpe | hpe <;>
          rw [hpe] <;>
          simp [restartRequested, List.any_cons, List.any_append,
            Effect.restartFlag, Effect.isChangedPut, Effect.isChangedBlock,
            loop_any_restart, loop_any_changedPut, motherLoop_reload,
            Bool.or_assoc]
  · simp only [deploy_wg_mother]
    by_cases hp : containsMarker w.file "PrivateKey = " = true
    · rw [if_pos hp]
      simp [enableStartRequested, List.any_cons, List.any_append,
        Effect.isEnableStart]
    · rw [if_neg hp]
      by_cases he : pass_entry = ""
      · simp only [he, ne_eq, not_true_eq_false, if_neg, ite_false, put]
        simp [enableStartRequested, List.any_cons, List.any_append,
          Effect.isEnableStart]
      · rw [if_pos he]
        rcases store_pass_effects (put w (full_config g.1 address []
            listen_port)).1 g.2 pass_entry with hpe | hpe <;>
          rw [hpe] <;>
          simp [enableStartRequested, List.any_cons, List.any_append,
            Effect.isEnableStart]
  · intro c s hpeers hwf hmk hblk
    subst hpeers
    have hp : containsMarker w.file "PrivateKey = " = true := by
      rw [hwf]
      exact hmk
    simp only [deploy_wg_mother]
    rw [if_pos hp]
    obtain ⟨file, store⟩ := w
    simp only at hwf
    subst hwf
    simp only [motherLoop, appendBlockIfAbsent, blockOf] at hblk ⊢
    rw [if_neg (by rw [hblk]; exact Bool.false_ne_true)]
    simp [restartRequested, List.any_cons, List.any_append,
      Effect.restartFlag]

/-- Witness for C4 at a concrete provisioned mother whose declared child block
is absent: the interface write is skipped yet restart is requested. -/
theorem claim_c4_witness :
    containsSub
      "[Interface]\nPrivateKey = K\nAddress = 10.0.0.1/24\nListenPort = 51820\n"
      "PrivateKey = " = true ∧
    containsSub
      "[Interface]\nPrivateKey = K\nAddress = 10.0.0.1/24\nListenPort = 51820\n"
      (blockOf ("c1", "PK", "10.0.0.2/32")) = false ∧
    restartRequested (deploy_wg_mother "10.0.0.1/24" "51820"
      [("c1", "PK", "10.0.0.2/32")] "" ("P", "U")
      ⟨some
        "[Interface]\nPrivateKey = K\nAddress = 10.0.0.1/24\nListenPort = 51820\n",
        []⟩).effects = true :=
  ⟨by decide, by decide,
    (claim_c4 "10.0.0.1/24" "51820" "" [("c1", "PK", "10.0.0.2/32")]
      ("P", "U")
      ⟨some
        "[Interface]\nPrivateKey = K\nAddress = 10.0.0.1/24\nListenPort = 51820\n",
        []⟩).2.2 ("c1", "PK", "10.0.0.2/32")
      "[Interface]\nPrivateKey = K\nAddress = 10.0.0.1/24\nListenPort = 51820\n"
      rfl rfl (by decide) (by decide)⟩

/-- Claim C5: store_public_key_in_pass writes to the pass store exactly when
the public key to store differs from the value currently read from the store
for that entry; when they are equal, no write happens and the store is left
unchanged. -/
theorem claim_c5 (w : World) (pubkey entry : String) :
    countPassWrites (store_public_key_in_pass w pubkey entry).2 =
      (if pubkey = get_pass w.passStore entry then 0 else 1) ∧
    (pubkey = get_pass w.passStore entry →
      (store_public_key_in_pass w pubkey entry).1 = w) := by
  simp only [store_public_key_in_pass]
  by_cases h : pubkey = get_pass w.passStore entry
  · rw [if_neg (not_not_intro h), if_pos h]
    exact ⟨rfl, fun _ => rfl⟩
  · rw [if_pos h, if_neg h]
    exact ⟨rfl, fun he => absurd he h⟩

/-- Witness for C5 at a concrete store already holding the generated key: the
value read equals the value to store, so no pass write is performed. -/
theorem claim_c5_witness :
    ("ABC" = get_pass [("wg/pub", "ABC")] "wg/pub") ∧
    countPassWrites (store_public_key_in_pass ⟨none, [("wg/pub", "ABC")]⟩
      "ABC" "wg/pub").2 = 0 ∧
    (store_public_key_in_pass ⟨none, [("wg/pub", "ABC")]⟩ "ABC" "wg/pub").1 =
      ⟨none, [("wg/pub", "ABC")]⟩ := by
  have h := claim_c5 ⟨none, [("wg/pub", "ABC")]⟩ "ABC" "wg/pub"
  exact ⟨by decide, by rw [h.1]; decide, h.2 (by decide)⟩

/-- Claim C9: the child reconciler never requests a service restart — its
single service request carries enabled=true, running=true, restarted=false —
on every input and every observed state, including a first provisioning
pass. -/
theorem claim_c9 (address mother m_pubkey m_allowed_ips m_endpoint
    pass_entry : String) (g : String × String) (w : World) :
    restartRequested (deploy_wg_child address mother m_pubkey m_allowed_ips
      m_endpoint pass_entry g w).effects = false ∧
    enableStartRequested (deploy_wg_child address mother m_pubkey m_allowed_ips
      m_endpoint pass_entry g w).effects = true := by
  simp only [deploy_wg_child]
  by_cases hp : containsMarker w.file "PrivateKey = " = true
  · rw [if_pos hp]
    exact ⟨rfl, rfl⟩
  · rw [if_neg hp]
    by_cases he : pass_entry = ""
    · simp only [he, ne_eq, not_true_eq_false, if_neg, ite_false]
      exact ⟨rfl, rfl⟩
    · rw [if_pos he]
      rcases store_pass_effects (put w (full_config g.1 address
          [(mother, m_pubkey, m_allowed_ips, m_endpoint)] "")).1 g.2 pass_entry
        with hpe | hpe <;> rw [hpe] <;> exact ⟨rfl, rfl⟩

/-- Claim C10: the deploy_wg_mother exported at the package top level
(__init__.py) has an empty body: it performs no operation and leaves all
observable state unchanged, for every input. -/
theorem claim_c10 (address listen_port : String)
    (peers : List (String × String × String)) (w : World) :
    (Init.deploy_wg_mother address listen_port peers w).world = w ∧
    (Init.deploy_wg_mother address listen_port peers w).effects = [] :=
  ⟨rfl, rfl⟩

theorem containsSub_eq_false_iff {s pat : String} :
    containsSub s pat = false ↔ ¬ pat.data <:+: s.data := by
  simp [containsSub]

/-- Counterexample for C8 as stated: the rendered peer text does not contain
the key spelled "AllowedIPs" (as the documented artifact format spells it); it
contains "AllowedIps" followed by the allowed-IPs value instead. -/
theorem claim_c8_counterexample :
    containsSub (peer_config "c1" "PUBKEY" "10.0.0.2/32" "") "AllowedIPs" =
      false ∧
    containsSub (peer_config "c1" "PUBKEY" "10.0.0.2/32" "")
      "AllowedIps = 10.0.0.2/32\n" = true := by
  constructor
  · decide
  · decide

/-- Claim C8 (amended): every rendered peer block contains the line key
spelled "AllowedIps", followed by " = " and the allowed-IPs value. -/
theorem claim_c8 (name pubkey ips endpoint : String) :
    containsSub (peer_config name pubkey ips endpoint)
      ("AllowedIps = " ++ ips ++ "\n") = true := by
  have key : ∀ X : String,
      containsSub (X ++ "\nAllowedIps = " ++ ips ++ "\n")
        ("AllowedIps = " ++ ips ++ "\n") = true := by
    intro X
    have he : X ++ "\nAllowedIps = " ++ ips ++ "\n" =
        (X ++ "\n") ++ ("AllowedIps = " ++ ips ++ "\n") := by
      apply string_ext
      simp only [String.data_append, List.append_assoc]
      rfl
    rw [he]
    exact containsSub_append_right _ (containsSub_self _)
  simp only [peer_config]
  by_cases hendp : endpoint = ""
  · simp only [hendp, ne_eq, not_true_eq_false, if_neg, ite_false]
    exact key _
  · rw [if_pos hendp]
    exact containsSub_append_left _ (key _)

theorem peer_body_not_infix {pat : List Char} (n k i : String)
    (hA : ¬ pat <:+: "\n# ".data)
    (hB : ¬ pat <:+: "\n[Peer]\nPublicKey = ".data)
    (hC : ¬ pat <:+: "\nAllowedIps = ".data) (hD : ¬ pat <:+: "\n".data)
    (hn : ¬ pat <:+: n.data) (hk : ¬ pat <:+: k.data) (hi : ¬ pat <:+: i.data)
    (hsp : Char.ofNat 32 ∉ pat) (hnl : '\n' ∉ pat) :
    ¬ pat <:+: (peer_config n k i "").data := by
  have hdata : (peer_config n k i "").data =
      ((((("\n# ".data ++ n.data) ++ "\n[Peer]\nPublicKey = ".data) ++ k.data)
        ++ "\nAllowedIps = ".data) ++ i.data) ++ "\n".data := by
    simp only [peer_config, ne_eq, not_true_eq_false, if_neg, ite_false,
      String.data_append]
  have h1 : ¬ pat <:+: ("\n# ".data ++ n.data) := by
    apply not_infix_append_last hA hn
    intro d hd
    rw [show ("\n# ".data.getLast?) = some (Char.ofNat 32) from rfl] at hd
    injection hd with h
    subst h
    exact hsp
  have h2 : ¬ pat <:+:
      (("\n# ".data ++ n.data) ++ "\n[Peer]\nPublicKey = ".data) := by
    apply not_infix_append_head h1 hB
    intro d hd
    rw [show ("\n[Peer]\nPublicKey = ".data.head?) = some '\n' from rfl] at hd
    injection hd with h
    subst h
    exact hnl
  have h3 : ¬ pat <:+:
      ((("\n# ".data ++ n.data) ++ "\n[Peer]\nPublicKey = ".data) ++
        k.data) := by
    apply not_infix_append_last h2 hk
    intro d hd
    rw [List.getLast?_append_of_ne_nil _ (by decide)] at hd
    rw [show ("\n[Peer]\nPublicKey = ".data.getLast?) =
      some (Char.ofNat 32) from rfl] at hd
    injection hd with h
    subst h
    exact hsp
  have h4 : ¬ pat <:+:
      (((("\n# ".data ++ n.data) ++ "\n[Peer]\nPublicKey = ".data) ++ k.data)
        ++ "\nAllowedIps = ".data) := by
    apply not_infix_append_head h3 hC
    intro d hd
    rw [show ("\nAllowedIps = ".data.head?) = some '\n' from rfl] at hd
    injection hd with h
    subst h
    exact hnl
  have h5 : ¬ pat <:+:
      ((((("\n# ".data ++ n.data) ++ "\n[Peer]\nPublicKey = ".data) ++ k.data)
        ++ "\nAllowedIps = ".data) ++ i.data) := by
    apply not_infix_append_last h4 hi
    intro d hd
    rw [List.getLast?_append_of_ne_nil _ (by decide)] at hd
    rw [show ("\nAllowedIps = ".data.getLast?) =
      some (Char.ofNat 32) from rfl] at hd
    injection hd with h
    subst h
    exact hsp
  have h6 : ¬ pat <:+:
      (((((("\n# ".data ++ n.data) ++ "\n[Peer]\nPublicKey = ".data) ++
        k.data) ++ "\nAllowedIps = ".data) ++ i.data) ++ "\n".data) := by
    apply not_infix_append_head h5 hD
    intro d hd
    rw [show (("\n" : String).data.head?) = some '\n' from rfl] at hd
    injection hd with h
    subst h
    exact hnl
  rw [hdata]
  exact h6

/-- Counterexample for C3 as stated: with an empty endpoint the claim says the
output contains neither the substring "Endpoint" nor "PersistentKeepalive" for
every name, but a peer whose name is itself "Endpoint" makes the output contain
that substring (inside the identity comment line). -/
theorem claim_c3_counterexample :
    containsSub (peer_config "Endpoint" "PUBKEY" "10.0.0.2/32" "")
      "Endpoint" = true := by
  decide

/-- Claim C3 (amended): for every name, public key and allowedIPs that do not
themselves contain the substrings "Endpoint" or "PersistentKeepalive", the
renderer's output contains the substrings "Endpoint" and "PersistentKeepalive"
iff the endpoint argument is non-empty, and with a non-empty endpoint it
contains "PersistentKeepalive = 25" exactly. -/
theorem claim_c3 (name pubkey ips endpoint : String)
    (h1 : containsSub name "Endpoint" = false)
    (h2 : containsSub pubkey "Endpoint" = false)
    (h3 : containsSub ips "Endpoint" = false)
    (h4 : containsSub name "PersistentKeepalive" = false)
    (h5 : containsSub pubkey "PersistentKeepalive" = false)
    (h6 : containsSub ips "PersistentKeepalive" = false) :
    containsSub (peer_config name pubkey ips endpoint) "Endpoint" =
      (endpoint != "") ∧
    containsSub (peer_config name pubkey ips endpoint)
      "PersistentKeepalive" = (endpoint != "") ∧
    (endpoint ≠ "" →
      containsSub (peer_config name pubkey ips endpoint)
        "PersistentKeepalive = 25" = true) := by
  by_cases he : endpoint = ""
  · subst he
    have hb : (("" : String) != "") = false := by decide
    rw [hb]
    refine ⟨?_, ?_, fun hne => absurd rfl hne⟩
    · rw [containsSub_eq_false_iff]
      exact peer_body_not_infix name pubkey ips (by decide) (by decide)
        (by decide) (by decide) (containsSub_eq_false_iff.mp h1)
        (containsSub_eq_false_iff.mp h2) (containsSub_eq_false_iff.mp h3)
        (by decide) (by decide)
    · rw [containsSub_eq_false_iff]
      exact peer_body_not_infix name pubkey ips (by decide) (by decide)
        (by decide) (by decide) (containsSub_eq_false_iff.mp h4)
        (containsSub_eq_false_iff.mp h5) (containsSub_eq_false_iff.mp h6)
        (by decide) (by decide)
  · have hb : (endpoint != "") = true := by
      rw [bne_iff_ne]
      exact he
    rw [hb]
    have hshape : peer_config name pubkey ips endpoint =
        ("\n# " ++ name ++ "\n[Peer]\nPublicKey = " ++ pubkey ++
          "\nAllowedIps = " ++ ips ++ "\n") ++
        ("Endpoint = " ++ endpoint ++ "\nPersistentKeepalive = 25\n") := by
      simp only [peer_config]
      rw [if_pos he]
    rw [hshape]
    refine ⟨?_, ?_, fun _ => ?_⟩
    · apply containsSub_append_right
      apply containsSub_append_left
      apply containsSub_append_left
      decide
    · apply containsSub_append_right
      apply containsSub_append_right
      decide
    · apply containsSub_append_right
      apply containsSub_append_right
      decide

/-- Witness for C3 (amended) at the spec's own example inputs, with a
non-empty endpoint. -/
theorem claim_c3_witness :
    containsSub "c1" "Endpoint" = false ∧
    containsSub "PUBKEY" "Endpoint" = false ∧
    containsSub "10.0.0.2/32" "Endpoint" = false ∧
    containsSub "c1" "PersistentKeepalive" = false ∧
    containsSub "PUBKEY" "PersistentKeepalive" = false ∧
    containsSub "10.0.0.2/32" "PersistentKeepalive" = false ∧
    (containsSub (peer_config "c1" "PUBKEY" "10.0.0.2/32" "1.2.3.4:51820")
        "Endpoint" = ("1.2.3.4:51820" != "") ∧
      containsSub (peer_config "c1" "PUBKEY" "10.0.0.2/32" "1.2.3.4:51820")
        "PersistentKeepalive" = ("1.2.3.4:51820" != "") ∧
      ("1.2.3.4:51820" ≠ "" →
        containsSub (peer_config "c1" "PUBKEY" "10.0.0.2/32" "1.2.3.4:51820")
          "PersistentKeepalive = 25" = true)) :=
  ⟨by decide, by decide, by decide, by decide, by decide, by decide,
    claim_c3 "c1" "PUBKEY" "10.0.0.2/32" "1.2.3.4:51820" (by decide)
      (by decide) (by decide) (by decide) (by decide) (by decide)⟩

theorem prefix_append_both {u v w : List Char} (h : v <+: w) :
    u ++ v <+: u ++ w := by
  obtain ⟨r, rfl⟩ := h
  exact ⟨r, by rw [List.append_assoc]⟩

theorem peer_config_data (n k i : String) :
    (peer_config n k i "").data =
      '\n' :: '#' :: (" ".data ++ (n.data ++ ("\n[Peer]\nPublicKey = ".data ++
        (k.data ++ ("\nAllowedIps = ".data ++ (i.data ++ "\n".data)))))) := by
  simp only [peer_config, ne_eq, not_true_eq_false, if_neg, ite_false,
    String.data_append, List.append_assoc]
  rfl

theorem peerMarker_data (n : String) :
    (peerMarker n).data = '\n' :: '#' :: (" ".data ++ (n.data ++ "\n".data)) := by
  simp only [peerMarker, String.data_append, List.append_assoc]
  rfl

theorem hash_mem_peer_config (n k i : String) :
    '#' ∈ (peer_config n k i "").data := by
  rw [peer_config_data]
  exact List.mem_cons_of_mem _ (List.mem_cons_self _ _)

theorem hash_not_mem_tail {n k i : String} (hn : '#' ∉ n.data)
    (hk : '#' ∉ k.data) (hi : '#' ∉ i.data) :
    '#' ∉ (" ".data ++ (n.data ++ ("\n[Peer]\nPublicKey = ".data ++
      (k.data ++ ("\nAllowedIps = ".data ++ (i.data ++ "\n".data)))))) := by
  intro hm
  simp only [List.mem_append] at hm
  rcases hm with h | h | h | h | h | h | h
  · exact absurd h (by decide)
  · exact hn h
  · exact absurd h (by decide)
  · exact hk h
  · exact absurd h (by decide)
  · exact hi h
  · exact absurd h (by decide)

theorem marker_prefix_block (n k i : String) :
    (" ".data ++ (n.data ++ "\n".data)) <+:
      (" ".data ++ (n.data ++ ("\n[Peer]\nPublicKey = ".data ++
        (k.data ++ ("\nAllowedIps = ".data ++ (i.data ++ "\n".data)))))) := by
  apply prefix_append_both
  apply prefix_append_both
  exact List.cons_prefix_cons.mpr ⟨rfl, List.nil_prefix⟩

theorem iter_absorb (block : String) (ps : List (String × String))
    (s : String) (hc : containsSub s block = true) :
    ∀ m, iterAppend m ⟨some s, ps⟩ block = ⟨some s, ps⟩ := by
  intro m
  induction m with
  | zero => rfl
  | succ m ih =>
    simp only [iterAppend, appendBlockIfAbsent]
    rw [if_pos hc]
    exact ih

/-- Claim C7: appending the same declared child descriptor N ≥ 1 times to a
config that does not yet mention it (no "#" comment characters, as produced by
the interface renderer) yields the config with exactly one appended copy of
the block, and the block's identity comment line occurs exactly once, so the
peer name heads exactly one PeerBlock of the resulting config. -/
theorem claim_c7 (name pubkey ips f : String) (ps : List (String × String))
    (n : Nat) (hn : 1 ≤ n) (hf : '#' ∉ f.data) (hname : '#' ∉ name.data)
    (hpub : '#' ∉ pubkey.data) (hips : '#' ∉ ips.data) :
    (iterAppend n ⟨some f, ps⟩ (peer_config name pubkey ips "")).file =
      some (f ++ peer_config name pubkey ips "") ∧
    countOcc (peerMarker name).data
      (f ++ peer_config name pubkey ips "").data = 1 := by
  have hcf : containsSub f (peer_config name pubkey ips "") = false :=
    containsSub_eq_false_of_not_mem (hash_mem_peer_config name pubkey ips) hf
  obtain ⟨m, rfl⟩ : ∃ m, n = m + 1 := ⟨n - 1, by omega⟩
  have step1 : iterAppend (m + 1) ⟨some f, ps⟩
      (peer_config name pubkey ips "") =
      iterAppend m ⟨some (f ++ peer_config name pubkey ips ""), ps⟩
        (peer_config name pubkey ips "") := by
    simp only [iterAppend, appendBlockIfAbsent]
    rw [if_neg (by rw [hcf]; exact Bool.false_ne_true)]
  have habs := iter_absorb (peer_config name pubkey ips "") ps
    (f ++ peer_config name pubkey ips "")
    (containsSub_append_right f (containsSub_self _)) m
  constructor
  · rw [step1, habs]
  · rw [String.data_append, peerMarker_data]
    rw [countOcc_append_hashfree ?hb f.data hf]
    case hb =>
      intro d hd
      rw [peer_config_data] at hd
      injection hd with h
      exact h.symm
    rw [peer_config_data]
    apply countOcc_block (hash_not_mem_tail hname hpub hips)
    exact List.cons_prefix_cons.mpr ⟨rfl, List.cons_prefix_cons.mpr
      ⟨rfl, marker_prefix_block name pubkey ips⟩⟩

/-- Witness for C7: appending the same descriptor three times onto a freshly
rendered interface config yields that config plus exactly one copy of the
block, whose identity comment occurs once. -/
theorem claim_c7_witness :
    1 ≤ 3 ∧
    '#' ∉ ("[Interface]\nPrivateKey = P\nAddress = 10.0.0.1/24\nListenPort = 51820\n" : String).data ∧
    '#' ∉ ("alice" : String).data ∧
    '#' ∉ ("AAA" : String).data ∧
    '#' ∉ ("10.0.0.2/32" : String).data ∧
    ((iterAppend 3
        ⟨some "[Interface]\nPrivateKey = P\nAddress = 10.0.0.1/24\nListenPort = 51820\n",
          []⟩ (peer_config "alice" "AAA" "10.0.0.2/32" "")).file =
      some ("[Interface]\nPrivateKey = P\nAddress = 10.0.0.1/24\nListenPort = 51820\n" ++
        peer_config "alice" "AAA" "10.0.0.2/32" "") ∧
      countOcc (peerMarker "alice").data
        ("[Interface]\nPrivateKey = P\nAddress = 10.0.0.1/24\nListenPort = 51820\n" ++
          peer_config "alice" "AAA" "10.0.0.2/32" "").data = 1) :=
  ⟨by decide, by decide, by decide, by decide, by decide,
    claim_c7 "alice" "AAA" "10.0.0.2/32"
      "[Interface]\nPrivateKey = P\nAddress = 10.0.0.1/24\nListenPort = 51820\n"
      [] 3 (by decide) (by decide) (by decide) (by decide) (by decide)⟩

set_option maxRecDepth 20000 in
/-- Claim C6: for the declared mother state (address 10.0.0.1/24, listen port
51820, single declared child alice with allowedIPs 10.0.0.2/32) and no
existing config, one mother pass performs exactly one (changing) write, the
final file is the interface section with the generated private key, the
Address line and the ListenPort line, followed by exactly one peer block for
alice containing no Endpoint and no PersistentKeepalive lines, and the restart
flag is true; moreover the renderer emits a ListenPort line iff the listen
port is non-empty. -/
theorem claim_c6 :
    (deploy_wg_mother "10.0.0.1/24" "51820"
      [("alice", "AAAexamplekey", "10.0.0.2/32")] ""
      ("PRIVKEYTEST", "PUBKEYTEST") ⟨none, []⟩).world.file =
      some expectedMotherConfig ∧
    countPuts (deploy_wg_mother "10.0.0.1/24" "51820"
      [("alice", "AAAexamplekey", "10.0.0.2/32")] ""
      ("PRIVKEYTEST", "PUBKEYTEST") ⟨none, []⟩).effects = 1 ∧
    countChangedPuts (deploy_wg_mother "10.0.0.1/24" "51820"
      [("alice", "AAAexamplekey", "10.0.0.2/32")] ""
      ("PRIVKEYTEST", "PUBKEYTEST") ⟨none, []⟩).effects = 1 ∧
    containsSub expectedMotherConfig "PrivateKey = PRIVKEYTEST\n" = true ∧
    containsSub expectedMotherConfig "Address = 10.0.0.1/24\n" = true ∧
    containsSub expectedMotherConfig "ListenPort = 51820\n" = true ∧
    countOcc (peerMarker "alice").data expectedMotherConfig.data = 1 ∧
    containsSub expectedMotherConfig "Endpoint" = false ∧
    containsSub expectedMotherConfig "PersistentKeepalive" = false ∧
    restartRequested (deploy_wg_mother "10.0.0.1/24" "51820"
      [("alice", "AAAexamplekey", "10.0.0.2/32")] ""
      ("PRIVKEYTEST", "PUBKEYTEST") ⟨none, []⟩).effects = true ∧
    (∀ port : String,
      containsSub (full_config "PRIVKEYTEST" "10.0.0.1/24" [] port)
        "ListenPort" = (port != "")) := by
  refine ⟨by decide, by decide, by decide, by decide, by decide, by decide,
    by decide, by decide, by decide, by decide, ?_⟩
  intro port
  by_cases hp : port = ""
  · subst hp
    decide
  · have hb : (port != "") = true := by
      rw [bne_iff_ne]
      exact hp
    rw [hb]
    simp only [full_config, List.foldl_nil]
    rw [if_pos hp]
    apply containsSub_append_right
    apply containsSub_append_left
    apply containsSub_append_left
    decide

end PyinfraWireguard
